import Mathlib

/-!
Verification of the Cortexa attribution and provenance engine against its
specification.  The numeric code (`cortex/attribution/eas.py`) operates on
IEEE doubles; we embed it over `ℚ`, modelling `np.linalg.norm`'s square root
as an explicit parameter `sq : ℚ → ℚ` (none of the verified properties
depend on the value of the square root, only on `sq 0 = 0` where needed, so
every theorem is stated for an arbitrary such function).
-/

namespace Cortexa

/-! ### EAS kernel — embedding of cortex/attribution/eas.py -/

/-- Dot product of two vectors (`matrix_n @ vector_n` row step). -/
def dot (xs ys : List ℚ) : ℚ := (List.zipWith (fun a b => a * b) xs ys).sum

/-- Sum of squares; the square of the L2 norm computed by `np.linalg.norm`. -/
def sumSq (xs : List ℚ) : ℚ := (xs.map (fun x => x * x)).sum

/-- Embedding of `_cosine_similarities(matrix, vector)`: each row of the
matrix is divided by its norm (zero norms replaced by 1), the vector is
normalized, and if the vector's norm is zero a zero vector of length k is
returned.  `sq` models the square root used by `np.linalg.norm`. -/
def cosineSimilarities (sq : ℚ → ℚ) (matrix : List (List ℚ)) (vector : List ℚ) :
    List ℚ :=
  let matrixN := matrix.map (fun row =>
    let n := sq (sumSq row)
    let n2 := if n = 0 then 1 else n
    row.map (fun x => x / n2))
  let normV := sq (sumSq vector)
  if normV = 0 then matrix.map (fun _ => 0)
  else matrixN.map (fun row => dot row (vector.map (fun x => x / normV)))

/-- Result of `compute_eas` (the wall-clock `compute_ms` field is not
modelled). -/
structure EasResult where
  scores : List ℚ
  raw_scores : List ℚ
deriving DecidableEq

/-- Embedding of `compute_eas(memory_embeddings, query_embedding,
response_embedding)`: clamp both cosine-similarity vectors at zero, take the
elementwise product, and normalize by the total, falling back to the uniform
`1/k` distribution when the total is not positive; `k = 0` yields empty
arrays. -/
def compute_eas (sq : ℚ → ℚ) (M : List (List ℚ)) (q r : List ℚ) : EasResult :=
  if M.length = 0 then ⟨[], []⟩
  else
    let simMr := (cosineSimilarities sq M r).map (fun x => max x 0)
    let simMq := (cosineSimilarities sq M q).map (fun x => max x 0)
    let raw := List.zipWith (fun a b => a * b) simMr simMq
    let total := raw.sum
    let scores := if 0 < total then raw.map (fun x => x / total)
                  else List.replicate M.length (1 / (M.length : ℚ))
    ⟨scores, raw⟩

lemma length_cosineSimilarities (sq : ℚ → ℚ) (M : List (List ℚ)) (v : List ℚ) :
    (cosineSimilarities sq M v).length = M.length := by
  unfold cosineSimilarities
  by_cases h : sq (sumSq v) = 0 <;> simp [h]

lemma map_max_nonneg (l : List ℚ) : ∀ x ∈ l.map (fun a => max a 0), 0 ≤ x := by
  intro x hx
  rcases List.mem_map.mp hx with ⟨a, _, rfl⟩
  exact le_max_right a 0

lemma zipWith_mul_nonneg (l1 l2 : List ℚ) (h1 : ∀ x ∈ l1, 0 ≤ x)
    (h2 : ∀ x ∈ l2, 0 ≤ x) :
    ∀ y ∈ List.zipWith (fun a b => a * b) l1 l2, 0 ≤ y := by
  induction l1 generalizing l2 with
  | nil => simp
  | cons a t ih =>
    cases l2 with
    | nil => simp
    | cons b t2 =>
      intro y hy
      rcases List.mem_cons.mp hy with hy | hy
      · subst hy
        exact mul_nonneg (h1 a (by simp)) (h2 b (by simp))
      · exact ih t2 (fun x hx => h1 x (by simp [hx]))
          (fun x hx => h2 x (by simp [hx])) y hy

lemma sum_map_div (l : List ℚ) (c : ℚ) :
    (l.map (fun x => x / c)).sum = l.sum / c := by
  induction l with
  | nil => simp
  | cons a t ih => simp [ih, add_div]

/-- Characterization of `compute_eas` for nonempty input. -/
lemma compute_eas_eq (sq : ℚ → ℚ) (M : List (List ℚ)) (q r : List ℚ)
    (h : M.length ≠ 0) :
    compute_eas sq M q r =
      { scores :=
          if 0 < (List.zipWith (fun a b => a * b)
              ((cosineSimilarities sq M r).map (fun x => max x 0))
              ((cosineSimilarities sq M q).map (fun x => max x 0))).sum then
            (List.zipWith (fun a b => a * b)
              ((cosineSimilarities sq M r).map (fun x => max x 0))
              ((cosineSimilarities sq M q).map (fun x => max x 0))).map
              (fun x => x / (List.zipWith (fun a b => a * b)
                ((cosineSimilarities sq M r).map (fun x => max x 0))
                ((cosineSimilarities sq M q).map (fun x => max x 0))).sum)
          else List.replicate M.length (1 / (M.length : ℚ))
        raw_scores := List.zipWith (fun a b => a * b)
          ((cosineSimilarities sq M r).map (fun x => max x 0))
          ((cosineSimilarities sq M q).map (fun x => max x 0)) } := by
  simp [compute_eas, h]

/-- The properties claimed for `compute_eas` on a nonempty matrix:
nonnegative scores summing to one, nonnegative raw scores, and the two
normalization branches. -/
def easNormalizedProp (sq : ℚ → ℚ) (M : List (List ℚ)) (q r : List ℚ) : Prop :=
  (∀ s ∈ (compute_eas sq M q r).scores, 0 ≤ s) ∧
  ((compute_eas sq M q r).scores).sum = 1 ∧
  (∀ s ∈ (compute_eas sq M q r).raw_scores, 0 ≤ s) ∧
  (0 < ((compute_eas sq M q r).raw_scores).sum →
    (compute_eas sq M q r).scores
      = ((compute_eas sq M q r).raw_scores).map
          (fun x => x / ((compute_eas sq M q r).raw_scores).sum)) ∧
  (((compute_eas sq M q r).raw_scores).sum = 0 →
    (compute_eas sq M q r).scores = List.replicate M.length (1 / (M.length : ℚ)))

/-- C4: for every memory-embedding matrix with `k ≥ 1` rows and every query
and response embedding, `compute_eas` returns scores that are all
nonnegative and sum to exactly `1` (the `ℚ` model has no rounding error);
when the total `T` of the clamped raw products is positive the scores are
`raw / T`, and when `T = 0` each score is the uniform `1/k`; the raw scores
are also all nonnegative. -/
theorem compute_eas_normalized (sq : ℚ → ℚ) (M : List (List ℚ)) (q r : List ℚ)
    (hM : M ≠ []) : easNormalizedProp sq M q r := by
  have hk0 : M.length ≠ 0 := fun h => hM (List.length_eq_zero.mp h)
  have hkq : (M.length : ℚ) ≠ 0 := Nat.cast_ne_zero.mpr hk0
  have hkq' : 0 < (M.length : ℚ) := by
    exact_mod_cast Nat.pos_of_ne_zero hk0
  rw [easNormalizedProp, compute_eas_eq sq M q r hk0]
  set raw := List.zipWith (fun a b => a * b)
    ((cosineSimilarities sq M r).map (fun x => max x 0))
    ((cosineSimilarities sq M q).map (fun x => max x 0)) with hraw
  have hrawpos : ∀ y ∈ raw, 0 ≤ y :=
    zipWith_mul_nonneg _ _ (map_max_nonneg _) (map_max_nonneg _)
  by_cases hT : 0 < raw.sum
  · refine ⟨?_, ?_, hrawpos, ?_, ?_⟩
    · intro s hs
      simp only [if_pos hT] at hs
      rcases List.mem_map.mp hs with ⟨a, ha, rfl⟩
      exact div_nonneg (hrawpos a ha) (le_of_lt hT)
    · simp only [if_pos hT, sum_map_div]
      exact div_self (ne_of_gt hT)
    · intro _
      simp only [if_pos hT]
    · intro h0
      rw [h0] at hT
      exact absurd hT (lt_irrefl 0)
  · refine ⟨?_, ?_, hrawpos, ?_, ?_⟩
    · intro s hs
      simp only [if_neg hT] at hs
      rcases List.eq_of_mem_replicate hs with rfl
      positivity
    · simp only [if_neg hT, List.sum_replicate, nsmul_eq_mul]
      field_simp
    · intro h'
      exact absurd h' hT
    · intro _
      simp only [if_neg hT]

/-- Witness for C4 at a concrete input. -/
theorem compute_eas_normalized_witness :
    ([[(1 : ℚ)]] ≠ ([] : List (List ℚ))) ∧
    easNormalizedProp id [[(1 : ℚ)]] [1] [1] :=
  ⟨by decide, compute_eas_normalized id [[(1 : ℚ)]] [1] [1] (by decide)⟩

/-- C9: with an empty collection of memory embeddings (`k = 0`),
`compute_eas` returns empty `scores` and `raw_scores` and does not fail. -/
theorem compute_eas_empty (sq : ℚ → ℚ) (q r : List ℚ) :
    compute_eas sq [] q r = ⟨[], []⟩ := rfl

/-- C5 as stated is false: for `M = [[1]]`, `q = [0]` (L2 norm zero) and
`r = [1]`, the cosine similarities against `q` are zero, so every raw
product is zero and `compute_eas` takes the uniform fallback, returning
`[1]` — not the zero vector `[0]` the claim demands.  (`sq := id` agrees
with the real square root on the norms `0` and `1` arising here.) -/
theorem zero_norm_counterexample :
    sumSq [(0 : ℚ)] = 0 ∧
    (compute_eas id [[(1 : ℚ)]] [0] [1]).scores = [1] ∧
    (compute_eas id [[(1 : ℚ)]] [0] [1]).scores ≠ [0] := by
  refine ⟨by simp [sumSq], ?_, ?_⟩ <;>
    norm_num [compute_eas, cosineSimilarities, sumSq, dot]

lemma zipWith_mul_zero (l1 l2 : List ℚ)
    (h : (∀ x ∈ l1, x = 0) ∨ (∀ x ∈ l2, x = 0)) :
    ∀ y ∈ List.zipWith (fun a b => a * b) l1 l2, y = 0 := by
  induction l1 generalizing l2 with
  | nil => simp
  | cons a t ih =>
    cases l2 with
    | nil => simp
    | cons b t2 =>
      intro y hy
      rcases List.mem_cons.mp hy with hy | hy
      · subst hy
        rcases h with h | h
        · rw [h a (by simp)]; simp
        · rw [h b (by simp)]; simp
      · refine ih t2 ?_ y hy
        rcases h with h | h
        · exact Or.inl (fun x hx => h x (by simp [hx]))
        · exact Or.inr (fun x hx => h x (by simp [hx]))

lemma length_zipWith_max (sq : ℚ → ℚ) (M : List (List ℚ)) (q r : List ℚ) :
    (List.zipWith (fun a b => a * b)
      ((cosineSimilarities sq M r).map (fun x => max x 0))
      ((cosineSimilarities sq M q).map (fun x => max x 0))).length
      = M.length := by
  simp [List.length_zipWith, length_cosineSimilarities]

lemma cosineSimilarities_zero_vector (sq : ℚ → ℚ) (M : List (List ℚ))
    (v : List ℚ) (hsq : sq 0 = 0) (hv : sumSq v = 0) :
    ∀ x ∈ (cosineSimilarities sq M v).map (fun x => max x 0), x = 0 := by
  intro x hx
  rcases List.mem_map.mp hx with ⟨a, ha, rfl⟩
  unfold cosineSimilarities at ha
  rw [hv, hsq] at ha
  simp only [if_pos rfl] at ha
  rcases List.mem_map.mp ha with ⟨_, _, rfl⟩
  simp

/-- The behaviour `compute_eas` actually exhibits on a zero-norm query or
response embedding: zero raw scores and the uniform `1/k` fallback. -/
def uniformFallbackProp (sq : ℚ → ℚ) (M : List (List ℚ)) (q r : List ℚ) :
    Prop :=
  (compute_eas sq M q r).raw_scores = List.replicate M.length 0 ∧
  (compute_eas sq M q r).scores = List.replicate M.length (1 / (M.length : ℚ))

/-- C5 amended: if the query or the response embedding has L2 norm zero
(equivalently, sum of squares zero), then the clamped cosine similarities
on that side are all zero, hence `raw_scores` is the zero vector of length
`k` and `compute_eas` returns the uniform fallback `1/k` scores (for
`k = 0` both are empty), provided the square-root model sends `0` to `0` as
the real square root does. -/
theorem zero_norm_uniform (sq : ℚ → ℚ) (M : List (List ℚ)) (q r : List ℚ)
    (hsq : sq 0 = 0) (h : sumSq q = 0 ∨ sumSq r = 0) :
    uniformFallbackProp sq M q r := by
  by_cases hk : M.length = 0
  · rw [List.length_eq_zero.mp hk]
    exact ⟨rfl, rfl⟩
  · rw [uniformFallbackProp, compute_eas_eq sq M q r hk]
    have hzero : ∀ y ∈ List.zipWith (fun a b => a * b)
        ((cosineSimilarities sq M r).map (fun x => max x 0))
        ((cosineSimilarities sq M q).map (fun x => max x 0)), y = 0 := by
      apply zipWith_mul_zero
      rcases h with h | h
      · exact Or.inr (cosineSimilarities_zero_vector sq M q hsq h)
      · exact Or.inl (cosineSimilarities_zero_vector sq M r hsq h)
    have hrep : List.zipWith (fun a b => a * b)
        ((cosineSimilarities sq M r).map (fun x => max x 0))
        ((cosineSimilarities sq M q).map (fun x => max x 0))
        = List.replicate M.length (0 : ℚ) := by
      rw [List.eq_replicate_iff]
      exact ⟨length_zipWith_max sq M q r, hzero⟩
    have hsum : (List.zipWith (fun a b => a * b)
        ((cosineSimilarities sq M r).map (fun x => max x 0))
        ((cosineSimilarities sq M q).map (fun x => max x 0))).sum = 0 := by
      rw [hrep]
      simp
    constructor
    · exact hrep
    · simp only [hsum, lt_irrefl, if_false]

/-- Witness for the amended C5 at a concrete input. -/
theorem zero_norm_uniform_witness :
    (id (0 : ℚ) = 0) ∧ (sumSq [(0 : ℚ)] = 0 ∨ sumSq [(1 : ℚ)] = 0) ∧
    uniformFallbackProp id [[(1 : ℚ)]] [0] [1] :=
  ⟨rfl, Or.inl (by simp [sumSq]),
    zero_norm_uniform id [[(1 : ℚ)]] [0] [1] rfl (Or.inl (by simp [sumSq]))⟩

/-! ### Attribution pipeline — embedding of the pure content of
`_run_eas_and_store` in cortex/api/transactions.py.

A `Memory` models a row of the `memories` table with the fields the routine
reads (`id`, `embedding`, `deleted_at`) plus the `retrieval_count` counter it
bumps; timestamps other than the soft-deletion marker are not modelled.
Python truthiness `if r.embedding` is false for both a missing (`None`) and
an empty embedding. -/

structure Memory where
  id : Nat
  embedding : Option (List ℚ)
  deleted_at : Option Nat
  retrieval_count : Nat
deriving DecidableEq

/-- Python truthiness of `r.embedding`: present and nonempty. -/
def hasEmbedding (m : Memory) : Bool :=
  match m.embedding with
  | none => false
  | some [] => false
  | some (_ :: _) => true

def insertById (m : Memory) : List Memory → List Memory
  | [] => [m]
  | x :: xs => if m.id ≤ x.id then m :: x :: xs else x :: insertById m xs

/-- `ORDER BY memories.id` (insertion sort; the ids are primary keys). -/
def sortById : List Memory → List Memory
  | [] => []
  | x :: xs => insertById x (sortById xs)

/-- The memory fetch of `_run_eas_and_store`: `WHERE id IN retrieved_ids`,
plus `deleted_at IS NULL` only when `snapshot` is false, then
`ORDER BY id`. -/
def fetchMemories (db : List Memory) (ids : List Nat) (snapshot : Bool) :
    List Memory :=
  let base := db.filter (fun m => ids.contains m.id)
  let live := if snapshot then base
              else base.filter (fun m => m.deleted_at.isNone)
  sortById live

/-- An `attribution_scores` row as stored by `_run_eas_and_store` (ids,
method, confidence and timing omitted: they are constants or fresh UUIDs). -/
structure StoredScore where
  memory_id : Nat
  score : ℚ
  raw_score : ℚ
deriving DecidableEq

/-- Score computation of `_run_eas_and_store` on the fetched rows: keep the
rows with a (truthy) embedding in order, run `compute_eas` when the matrix
is nonempty, and assign scores positionally with a `0.0` default. -/
def scoresFromRows (sq : ℚ → ℚ) (q r : List ℚ) (memRows : List Memory) :
    List StoredScore :=
  let memWithEmb := memRows.filter hasEmbedding
  let matrix := memWithEmb.map (fun m => m.embedding.getD [])
  let eas :=
    if memRows.isEmpty then (⟨[], []⟩ : EasResult)
    else if 0 < (matrix.map List.length).sum then compute_eas sq matrix q r
    else (⟨[], []⟩ : EasResult)
  memWithEmb.enum.map (fun p =>
    (⟨p.2.id, eas.scores.getD p.1 0, eas.raw_scores.getD p.1 0⟩ : StoredScore))

/-- The scores `_run_eas_and_store(txn_id, q, r, ids, snapshot)` computes
and stores, as a function of the `memories` table contents. -/
def runEasScores (sq : ℚ → ℚ) (db : List Memory) (q r : List ℚ)
    (ids : List Nat) (snapshot : Bool) : List StoredScore :=
  scoresFromRows sq q r (fetchMemories db ids snapshot)

/-- Soft-deletion between initiate and complete: every memory row keeps its
id and embedding, only `deleted_at` is rewritten. -/
def markDeleted (f : Memory → Option Nat) (db : List Memory) : List Memory :=
  db.map (fun m => { m with deleted_at := f m })

lemma filter_map_of_pred {α : Type} (g : α → α) (p : α → Bool)
    (hp : ∀ m, p (g m) = p m) (l : List α) :
    (l.map g).filter p = (l.filter p).map g := by
  induction l with
  | nil => rfl
  | cons a t ih =>
    by_cases h : p a = true
    · simp [List.filter_cons, hp, h, ih]
    · simp [List.filter_cons, hp, h, ih]

lemma insertById_map (g : Memory → Memory) (hg : ∀ m, (g m).id = m.id)
    (m : Memory) (l : List Memory) :
    insertById (g m) (l.map g) = (insertById m l).map g := by
  induction l with
  | nil => rfl
  | cons a t ih =>
    simp only [List.map_cons, insertById, hg]
    by_cases h : m.id ≤ a.id
    · simp [h]
    · simp [h, ih]

lemma sortById_map (g : Memory → Memory) (hg : ∀ m, (g m).id = m.id)
    (l : List Memory) :
    sortById (l.map g) = (sortById l).map g := by
  induction l with
  | nil => rfl
  | cons a t ih => simp only [List.map_cons, sortById, ih, insertById_map g hg]

lemma insertById_perm (m : Memory) (l : List Memory) :
    List.Perm (insertById m l) (m :: l) := by
  induction l with
  | nil => exact List.Perm.refl _
  | cons a t ih =>
    simp only [insertById]
    by_cases h : m.id ≤ a.id
    · simp [h]
    · simp only [h, if_false]
      exact (ih.cons a).trans (List.Perm.swap m a t)

lemma sortById_perm (l : List Memory) : List.Perm (sortById l) l := by
  induction l with
  | nil => exact List.Perm.refl _
  | cons a t ih => exact (insertById_perm a (sortById t)).trans (ih.cons a)

lemma scoresFromRows_map (sq : ℚ → ℚ) (q r : List ℚ) (g : Memory → Memory)
    (hid : ∀ m, (g m).id = m.id) (hemb : ∀ m, (g m).embedding = m.embedding)
    (rows : List Memory) :
    scoresFromRows sq q r (rows.map g) = scoresFromRows sq q r rows := by
  have hhe : ∀ m, hasEmbedding (g m) = hasEmbedding m := by
    intro m; unfold hasEmbedding; rw [hemb]
  have hempty : (rows.map g).isEmpty = rows.isEmpty := by
    cases rows <;> rfl
  unfold scoresFromRows
  simp only [filter_map_of_pred g hasEmbedding hhe, hempty, List.map_map,
    List.enum_map, Function.comp_def, Prod.map_fst, Prod.map_snd, id_eq,
    hemb, hid]

/-- The two-phase/single-shot agreement property: marking any subset of the
memories as soft-deleted, the snapshot run computes exactly the scores of a
single-shot run on the undeleted table, and the score list keeps the full
length of the initiate-time memory set (its rows with a truthy
embedding). -/
def twoPhaseMatchProp (sq : ℚ → ℚ) (db : List Memory)
    (f : Memory → Option Nat) (q r : List ℚ) (ids : List Nat) : Prop :=
  runEasScores sq (markDeleted f db) q r ids true
    = runEasScores sq db q r ids false ∧
  (runEasScores sq (markDeleted f db) q r ids true).length
    = ((db.filter (fun m => ids.contains m.id)).filter hasEmbedding).length

/-- C1: if every memory is live (`deleted_at IS NULL`) at initiate time,
then for any soft-deletions applied between initiate and complete
(`markDeleted f`), the scores computed by the two-phase path
(`snapshot = true`) are identical to the single-shot path
(`snapshot = false`) on the initiate-time table for the same
`(q, r, memory-id set)`, and the score list keeps the full length of the
initiate-time memory set. -/
theorem two_phase_single_shot (sq : ℚ → ℚ) (db : List Memory)
    (f : Memory → Option Nat) (q r : List ℚ) (ids : List Nat)
    (hlive : ∀ m ∈ db, m.deleted_at = none) :
    twoPhaseMatchProp sq db f q r ids := by
  have hfetch_true : fetchMemories (markDeleted f db) ids true
      = (fetchMemories db ids true).map
          (fun m => { m with deleted_at := f m }) := by
    unfold fetchMemories markDeleted
    simp only [if_true]
    rw [filter_map_of_pred
        ((fun m => { m with deleted_at := f m }) : Memory → Memory)
        (fun m => ids.contains m.id) (fun m => rfl),
      sortById_map (fun m => { m with deleted_at := f m }) (fun m => rfl)]
  have hfetch_false : fetchMemories db ids false = fetchMemories db ids true := by
    unfold fetchMemories
    simp only [if_true, if_false]
    congr 1
    apply List.filter_eq_self.mpr
    intro m hm
    have := hlive m (List.mem_of_mem_filter hm)
    simp [this]
  have hmain : runEasScores sq (markDeleted f db) q r ids true
      = runEasScores sq db q r ids false := by
    unfold runEasScores
    rw [hfetch_true, hfetch_false,
      scoresFromRows_map sq q r (fun m => { m with deleted_at := f m })
        (fun m => rfl) (fun m => rfl)]
  refine ⟨hmain, ?_⟩
  rw [hmain]
  unfold runEasScores scoresFromRows
  rw [hfetch_false]
  simp only [List.length_map, List.enum_length]
  unfold fetchMemories
  simp only [if_true]
  exact (List.Perm.filter hasEmbedding (sortById_perm _)).length_eq

/-- Witness for C1 at a concrete input: one live memory soft-deleted
between initiate and complete. -/
theorem two_phase_single_shot_witness :
    (∀ m ∈ [({ id := 1, embedding := some [1], deleted_at := none,
                retrieval_count := 0 } : Memory)], m.deleted_at = none) ∧
    twoPhaseMatchProp id
      [{ id := 1, embedding := some [1], deleted_at := none,
         retrieval_count := 0 }]
      (fun _ => some 5) [1] [1] [1] :=
  ⟨by simp, two_phase_single_shot id _ (fun _ => some 5) [1] [1] [1] (by simp)⟩

/-! ### Memory profiles — the atomic Welford upsert of
`_run_eas_and_store` (the `INSERT ... ON CONFLICT (memory_id) DO UPDATE`
statement).  The SQL literals `1.1` and `0.9` are the rationals `11/10` and
`9/10`. -/

structure MemoryProfile where
  mean_attribution : ℚ
  m2 : ℚ
  retrieval_count : Nat
  total_attribution : ℚ
  trend : String
deriving DecidableEq

/-- The profile row produced by the upsert: fresh insert when no row exists
for the memory, otherwise the single-statement Welford update transcribed
from the SQL. -/
def welfordUpsert (existing : Option MemoryProfile) (x : ℚ) : MemoryProfile :=
  match existing with
  | none => ⟨x, 0, 1, x, "stable"⟩
  | some p =>
      { mean_attribution := p.mean_attribution +
          (x - p.mean_attribution) / ((p.retrieval_count : ℚ) + 1)
        m2 := p.m2 + (x - p.mean_attribution) *
          (x - (p.mean_attribution +
            (x - p.mean_attribution) / ((p.retrieval_count : ℚ) + 1)))
        retrieval_count := p.retrieval_count + 1
        total_attribution := p.total_attribution + x
        trend := if p.mean_attribution * (11 / 10) < x then "up"
                 else if x < p.mean_attribution * (9 / 10) then "down"
                 else "stable" }

/-- The claim's statement of the update, with `n' = n + 1`, the new mean
used inside the `m2` update, and the trend thresholds written `1.1·mean`
and `0.9·mean` against the old mean. -/
def welfordSpecProp (p : MemoryProfile) (x : ℚ) : Prop :=
  (welfordUpsert (some p) x).retrieval_count = p.retrieval_count + 1 ∧
  (welfordUpsert (some p) x).mean_attribution
    = p.mean_attribution
      + (x - p.mean_attribution) / ((p.retrieval_count : ℚ) + 1) ∧
  (welfordUpsert (some p) x).m2
    = p.m2 + (x - p.mean_attribution)
        * (x - (welfordUpsert (some p) x).mean_attribution) ∧
  (welfordUpsert (some p) x).total_attribution = p.total_attribution + x ∧
  (welfordUpsert (some p) x).trend
    = (if (11 / 10) * p.mean_attribution < x then "up"
       else if x < (9 / 10) * p.mean_attribution then "down" else "stable")

/-- C2: the profile upsert establishes `n' = n + 1`,
`mean' = mean + (x − mean)/n'`, `m2' = m2 + (x − mean)·(x − mean')`,
`total' = total + x`, and the trend computed against the old mean with the
`1.1`/`0.9` thresholds; a first insert produces
`(mean = x, m2 = 0, n = 1, total = x, trend = "stable")`. -/
theorem welford_upsert_spec (p : MemoryProfile) (x : ℚ) :
    welfordSpecProp p x ∧ welfordUpsert none x = ⟨x, 0, 1, x, "stable"⟩ := by
  refine ⟨⟨rfl, rfl, rfl, rfl, ?_⟩, rfl⟩
  simp only [welfordUpsert]
  rw [mul_comm p.mean_attribution (11 / 10), mul_comm p.mean_attribution (9 / 10)]

/-! ### Provenance graph — embedding of
cortex/compliance/provenance.py.

Node and edge rows carry the fields the verified operations read or write;
timestamps and metadata blobs are not modelled.  UUIDs are modelled as
natural numbers (`session.flush()` materialising a fresh id is modelled by
a `nextId` counter in the state). -/

inductive ScoreType
  | eas
  | contextcite
  | calibrated
deriving DecidableEq

inductive NodeType
  | memory
  | summary
  | embedding
deriving DecidableEq

structure InteractionNode where
  id : Nat
  user_id : String
  query : String
  response : String
  agent_id : String
  transaction_cost : ℚ
deriving DecidableEq

structure AttributionEdge where
  source_id : Nat
  target_id : Nat
  score : ℚ
  score_type : ScoreType
  version : Nat
  is_current : Bool
deriving DecidableEq

structure CreationEdge where
  source_id : Nat
  target_id : Nat
deriving DecidableEq

structure DerivationEdge where
  source_id : Nat
  source_type : NodeType
  target_id : Nat
  target_type : NodeType
deriving DecidableEq

/-- The tables touched by the verified ProvenanceGraph operations. -/
structure GraphState where
  nextId : Nat
  interactions : List InteractionNode
  attribution_edges : List AttributionEdge
  creation_edges : List CreationEdge
  derivation_edges : List DerivationEdge
deriving DecidableEq

/-- Embedding of `ProvenanceGraph.record_transaction`: insert the
interaction node (flush materialises its id), then one AttributionEdge per
`zip(memory_ids, attribution_scores)` pair with `version = 1` and
`is_current = True`; Python's `zip` silently truncates to the shorter
list. -/
def recordTransaction (st : GraphState) (user_id query response agent_id : String)
    (transaction_cost : ℚ) (memory_ids : List Nat)
    (attribution_scores : List ℚ) (score_type : ScoreType) :
    GraphState × InteractionNode :=
  let node : InteractionNode :=
    ⟨st.nextId, user_id, query, response, agent_id, transaction_cost⟩
  let edges := (memory_ids.zip attribution_scores).map
    (fun p => (⟨p.1, node.id, p.2, score_type, 1, true⟩ : AttributionEdge))
  ({ st with nextId := st.nextId + 1,
             interactions := st.interactions ++ [node],
             attribution_edges := st.attribution_edges ++ edges }, node)

/-- The behaviour of `record_transaction` on the state: edges appended for
exactly the positional pairs up to the shorter length, the interaction
appended, and nothing else touched. -/
def recordTransactionProp (st : GraphState) (u q r a : String) (c : ℚ)
    (mids : List Nat) (scores : List ℚ) (ty : ScoreType) : Prop :=
  (recordTransaction st u q r a c mids scores ty).1.attribution_edges
    = st.attribution_edges ++ (mids.zip scores).map
        (fun p => (⟨p.1, st.nextId, p.2, ty, 1, true⟩ : AttributionEdge)) ∧
  (mids.zip scores).length = min mids.length scores.length ∧
  (recordTransaction st u q r a c mids scores ty).1.interactions
    = st.interactions ++ [⟨st.nextId, u, q, r, a, c⟩] ∧
  (mids = [] → (recordTransaction st u q r a c mids scores ty).1.attribution_edges
    = st.attribution_edges) ∧
  (recordTransaction st u q r a c mids scores ty).1.creation_edges
    = st.creation_edges ∧
  (recordTransaction st u q r a c mids scores ty).1.derivation_edges
    = st.derivation_edges

/-- C10: `record_transaction` raises no error on `memory_ids` and
`attribution_scores` of different lengths — it zips positionally, so
AttributionEdge rows are created only up to the shorter length and the
surplus entries are silently ignored; with `memory_ids = []` only the
InteractionNode is inserted. -/
theorem record_transaction_zip (st : GraphState) (u q r a : String) (c : ℚ)
    (mids : List Nat) (scores : List ℚ) (ty : ScoreType) :
    recordTransactionProp st u q r a c mids scores ty := by
  refine ⟨rfl, ?_, rfl, ?_, rfl, rfl⟩
  · rw [List.length_zip]
  · intro h
    subst h
    simp [recordTransaction]

/-- Witness for C10 at a concrete input (one score, no memory ids: only the
interaction is recorded). -/
theorem record_transaction_zip_witness :
    recordTransactionProp ⟨0, [], [], [], []⟩ "u" "q" "r" "a" 0 [] [1 / 2]
      ScoreType.eas :=
  record_transaction_zip ⟨0, [], [], [], []⟩ "u" "q" "r" "a" 0 [] [1 / 2]
    ScoreType.eas

/-- The `SELECT version WHERE source, target, is_current` step of
`update_attribution`, with `scalar_one_or_none` semantics: `none` models
the `MultipleResultsFound` error raised when more than one current row
matches; `some none` is "no current row". -/
def currentVersionSelect (edges : List AttributionEdge) (s t : Nat) :
    Option (Option Nat) :=
  match edges.filter
      (fun e => e.source_id == s && e.target_id == t && e.is_current) with
  | [] => some none
  | [e] => some (some e.version)
  | _ => none

/-- The `UPDATE ... SET is_current = FALSE` step applied to one row. -/
def flipIfCurrent (s t : Nat) (e : AttributionEdge) : AttributionEdge :=
  if e.source_id == s && e.target_id == t && e.is_current
  then { e with is_current := false } else e

/-- Embedding of `ProvenanceGraph.update_attribution`: read the current
version `v` (`scalar_one_or_none`), flip `is_current` on every matching
current row, and append a new row with `version = (v ?? 0) + 1` and
`is_current = TRUE`. -/
def updateAttribution (st : GraphState) (s t : Nat) (new_score : ℚ)
    (new_score_type : ScoreType) : Option GraphState :=
  match currentVersionSelect st.attribution_edges s t with
  | none => none
  | some cur =>
      some { st with attribution_edges :=
        st.attribution_edges.map (flipIfCurrent s t)
        ++ [⟨s, t, new_score, new_score_type, cur.getD 0 + 1, true⟩] }

/-- The rows of the edge table belonging to one `(source_id, target_id)`
pair. -/
def pairRows (edges : List AttributionEdge) (s t : Nat) :
    List AttributionEdge :=
  edges.filter (fun e => e.source_id == s && e.target_id == t)

def flipCurrent (e : AttributionEdge) : AttributionEdge :=
  { e with is_current := false }

/-- The versioning invariant for the rows of one pair: the versions are
exactly `1, …, n` (dense and contiguous from 1) and a row is current
exactly when it carries the latest version `n`; in particular at most one
row is current. -/
def pairInv (rows : List AttributionEdge) : Prop :=
  List.Perm (rows.map (fun e => e.version)) (List.range' 1 rows.length) ∧
  ∀ e ∈ rows, (e.is_current = true ↔ e.version = rows.length)

lemma flipIfCurrent_source (s t : Nat) (e : AttributionEdge) :
    ((flipIfCurrent s t e).source_id == s
      && (flipIfCurrent s t e).target_id == t)
    = (e.source_id == s && e.target_id == t) := by
  unfold flipIfCurrent
  by_cases h : (e.source_id == s && e.target_id == t && e.is_current) = true
  · rw [if_pos h]
  · rw [if_neg h]

lemma flipIfCurrent_eq_flipCurrent (s t : Nat) (e : AttributionEdge)
    (h : (e.source_id == s && e.target_id == t) = true) :
    flipIfCurrent s t e = flipCurrent e := by
  cases e with
  | mk src tgt sc ty v cur =>
    cases cur
    · simp [flipIfCurrent, flipCurrent, h]
    · simp [flipIfCurrent, flipCurrent, h]

lemma version_lt_of_mem {rows : List AttributionEdge}
    (hperm : List.Perm (rows.map (fun e => e.version))
      (List.range' 1 rows.length))
    {e : AttributionEdge} (he : e ∈ rows) : e.version < rows.length + 1 := by
  have h1 : e.version ∈ rows.map (fun e => e.version) :=
    List.mem_map_of_mem _ he
  rcases List.mem_range'.mp (hperm.mem_iff.mp h1) with ⟨i, hi, hieq⟩
  omega

/-- Selecting the current rows of the pair is filtering the pair's rows by
`is_current`. -/
lemma select_current_eq (edges : List AttributionEdge) (s t : Nat) :
    edges.filter
        (fun e => e.source_id == s && e.target_id == t && e.is_current)
      = (pairRows edges s t).filter (fun e => e.is_current) := by
  unfold pairRows
  rw [List.filter_filter]
  apply List.filter_congr
  intro e _
  cases e.source_id == s <;> cases e.target_id == t <;> cases e.is_current <;>
    rfl

/-- Rows of a different pair are untouched by the flip-and-append. -/
lemma pairRows_update_other (edges : List AttributionEdge) (s t : Nat)
    (x : ℚ) (ty : ScoreType) (v : Nat) (s2 t2 : Nat)
    (hne : ¬(s2 = s ∧ t2 = t)) :
    pairRows (edges.map (flipIfCurrent s t)
        ++ [⟨s, t, x, ty, v, true⟩]) s2 t2
      = pairRows edges s2 t2 := by
  unfold pairRows
  rw [List.filter_append,
    filter_map_of_pred (flipIfCurrent s t)
      (fun e => e.source_id == s2 && e.target_id == t2)
      (fun e => by
        unfold flipIfCurrent
        by_cases h : (e.source_id == s && e.target_id == t && e.is_current)
            = true
        · rw [if_pos h]
        · rw [if_neg h])]
  have hfalse : ((⟨s, t, x, ty, v, true⟩ : AttributionEdge).source_id == s2
      && (⟨s, t, x, ty, v, true⟩ : AttributionEdge).target_id == t2)
      = false := by
    by_cases h1 : s = s2
    · by_cases h2 : t = t2
      · exact absurd ⟨h1.symm, h2.symm⟩ hne
      · simp [h2]
    · simp [h1]
  rw [show List.filter
      (fun e => e.source_id == s2 && e.target_id == t2)
      [(⟨s, t, x, ty, v, true⟩ : AttributionEdge)] = [] from by
    simp [List.filter, hfalse]]
  rw [List.append_nil]
  have hid : ∀ e ∈ edges.filter
      (fun e => e.source_id == s2 && e.target_id == t2),
      flipIfCurrent s t e = e := by
    intro e he
    have hp2 := (List.mem_filter.mp he).2
    rw [Bool.and_eq_true, beq_iff_eq, beq_iff_eq] at hp2
    unfold flipIfCurrent
    rw [if_neg]
    intro hbig
    rw [Bool.and_eq_true, Bool.and_eq_true, beq_iff_eq, beq_iff_eq] at hbig
    exact hne ⟨hp2.1 ▸ hbig.1.1, hp2.2 ▸ hbig.1.2⟩
  calc (edges.filter
        (fun e => e.source_id == s2 && e.target_id == t2)).map
          (flipIfCurrent s t)
      = (edges.filter
          (fun e => e.source_id == s2 && e.target_id == t2)).map id :=
        List.map_congr_left hid
    _ = edges.filter (fun e => e.source_id == s2 && e.target_id == t2) :=
        List.map_id _

/-- The behaviour `update_attribution` is claimed to have under the
versioning invariant: it succeeds, the pair's rows become the old rows with
`is_current` cleared plus one fresh current row with the next contiguous
version, the invariant still holds, exactly one row of the pair is current,
and every other pair is untouched. -/
def updateVersioningProp (st : GraphState) (s t : Nat) (x : ℚ)
    (ty : ScoreType) : Prop :=
  ∃ st', updateAttribution st s t x ty = some st' ∧
    pairRows st'.attribution_edges s t
      = (pairRows st.attribution_edges s t).map flipCurrent
        ++ [⟨s, t, x, ty, (pairRows st.attribution_edges s t).length + 1,
             true⟩] ∧
    pairInv (pairRows st'.attribution_edges s t) ∧
    ((pairRows st'.attribution_edges s t).filter
      (fun e => e.is_current)).length = 1 ∧
    ∀ s2 t2, ¬(s2 = s ∧ t2 = t) →
      pairRows st'.attribution_edges s2 t2
        = pairRows st.attribution_edges s2 t2

/-- C3: under the invariant that the rows of `(source_id, target_id)` carry
dense contiguous versions `1..n` with the latest (and only the latest)
current, `update_attribution` reads the current version `v`, flips
`is_current` on that row, inserts a new current row with version
`(v ?? 0) + 1 = n + 1`, preserves the invariant (hence at most one —
indeed exactly one — current row per pair), and leaves every other pair's
rows unchanged. -/
theorem update_attribution_versioning (st : GraphState) (s t : Nat) (x : ℚ)
    (ty : ScoreType)
    (hinv : pairInv (pairRows st.attribution_edges s t)) :
    updateVersioningProp st s t x ty := by
  obtain ⟨hperm, hcur⟩ := hinv
  have hsel := select_current_eq st.attribution_edges s t
  -- the update succeeds and appends version `n + 1`
  have hupd : updateAttribution st s t x ty
      = some { st with attribution_edges :=
          st.attribution_edges.map (flipIfCurrent s t)
          ++ [⟨s, t, x, ty,
               (pairRows st.attribution_edges s t).length + 1, true⟩] } := by
    by_cases hrows : pairRows st.attribution_edges s t = []
    · have hsel0 : st.attribution_edges.filter
          (fun e => e.source_id == s && e.target_id == t && e.is_current)
          = [] := by
        rw [hsel, hrows]
        rfl
      simp only [updateAttribution, currentVersionSelect, hsel0, hrows,
        Option.getD, List.length_nil]
    · have hfc : (pairRows st.attribution_edges s t).filter
          (fun e => e.is_current)
          = (pairRows st.attribution_edges s t).filter
              (fun e => e.version
                == (pairRows st.attribution_edges s t).length) := by
        apply List.filter_congr
        intro e he
        have h2 := hcur e he
        cases hc : e.is_current
        · symm
          rw [beq_eq_false_iff_ne]
          intro hv
          have h3 := h2.mpr hv
          rw [hc] at h3
          exact Bool.false_ne_true h3
        · symm
          rw [beq_iff_eq]
          exact h2.mp hc
      have hne0 : 0 < (pairRows st.attribution_edges s t).length :=
        List.length_pos.mpr hrows
      have hmem : (pairRows st.attribution_edges s t).length
          ∈ List.range' 1 (pairRows st.attribution_edges s t).length := by
        apply List.mem_range'.mpr
        exact ⟨(pairRows st.attribution_edges s t).length - 1, by omega,
          by omega⟩
      have hlen1 : ((pairRows st.attribution_edges s t).filter
          (fun e => e.is_current)).length = 1 := by
        rw [hfc, ← List.countP_eq_length_filter]
        calc List.countP
              (fun e => e.version
                == (pairRows st.attribution_edges s t).length)
              (pairRows st.attribution_edges s t)
            = List.countP
                (fun v => v == (pairRows st.attribution_edges s t).length)
                ((pairRows st.attribution_edges s t).map
                  (fun e => e.version)) := by
              rw [List.countP_map]
              rfl
          _ = List.countP
                (fun v => v == (pairRows st.attribution_edges s t).length)
                (List.range' 1 (pairRows st.attribution_edges s t).length) :=
              hperm.countP_eq _
          _ = 1 := List.count_eq_one_of_mem (List.nodup_range' 1 _) hmem
      obtain ⟨e0, he0⟩ := List.length_eq_one.mp hlen1
      have he0mem : e0 ∈ pairRows st.attribution_edges s t
          ∧ e0.is_current = true := by
        have h4 := List.mem_filter.mp (he0 ▸ List.mem_singleton_self e0)
        exact ⟨h4.1, h4.2⟩
      have hv0 : e0.version = (pairRows st.attribution_edges s t).length :=
        (hcur e0 he0mem.1).mp he0mem.2
      have hcvs : currentVersionSelect st.attribution_edges s t
          = some (some (pairRows st.attribution_edges s t).length) := by
        simp only [currentVersionSelect, hsel, he0, hv0]
      simp only [updateAttribution, hcvs, Option.getD]
  -- the pair's rows after the update
  have hnew : ((⟨s, t, x, ty,
      (pairRows st.attribution_edges s t).length + 1, true⟩ :
        AttributionEdge).source_id == s
      && (⟨s, t, x, ty, (pairRows st.attribution_edges s t).length + 1,
            true⟩ : AttributionEdge).target_id == t) = true := by
    simp
  have hpr : pairRows
      (st.attribution_edges.map (flipIfCurrent s t)
        ++ [⟨s, t, x, ty,
             (pairRows st.attribution_edges s t).length + 1, true⟩]) s t
      = (pairRows st.attribution_edges s t).map flipCurrent
        ++ [⟨s, t, x, ty,
             (pairRows st.attribution_edges s t).length + 1, true⟩] := by
    unfold pairRows
    rw [List.filter_append,
      filter_map_of_pred (flipIfCurrent s t)
        (fun e => e.source_id == s && e.target_id == t)
        (flipIfCurrent_source s t)]
    congr 1
    · apply List.map_congr_left
      intro e he
      exact flipIfCurrent_eq_flipCurrent s t e (List.mem_filter.mp he).2
    · simp [List.filter, hnew]
  refine ⟨_, hupd, hpr, ?_, ?_, ?_⟩
  · -- the invariant is preserved
    rw [hpr]
    constructor
    · rw [List.map_append, List.map_map, List.length_append,
        List.length_map]
      have hvers : (pairRows st.attribution_edges s t).map
          ((fun e => e.version) ∘ flipCurrent)
          = (pairRows st.attribution_edges s t).map (fun e => e.version) :=
        List.map_congr_left (fun e _ => rfl)
      rw [hvers]
      have h13 : List.range' 1 ((pairRows st.attribution_edges s t).length
          + List.length [(⟨s, t, x, ty,
              (pairRows st.attribution_edges s t).length + 1, true⟩ :
                AttributionEdge)])
          = List.range' 1 (pairRows st.attribution_edges s t).length
            ++ [(pairRows st.attribution_edges s t).length + 1] := by
        rw [List.length_singleton, List.range'_concat]
        congr 1
        simp [Nat.add_comm]
      rw [h13]
      exact hperm.append_right _
    · intro e he
      rw [List.length_append, List.length_map, List.length_singleton]
      rcases List.mem_append.mp he with he' | he'
      · rcases List.mem_map.mp he' with ⟨e', he'', rfl⟩
        apply iff_of_false
        · simp [flipCurrent]
        · show ¬(flipCurrent e').version
            = (pairRows st.attribution_edges s t).length + 1
          have hlt := version_lt_of_mem hperm he''
          have : (flipCurrent e').version = e'.version := rfl
          omega
      · rw [List.mem_singleton.mp he']
        apply iff_of_true rfl rfl
  · -- exactly one current row
    rw [hpr, List.filter_append]
    have h1 : ((pairRows st.attribution_edges s t).map
        flipCurrent).filter (fun e => e.is_current) = [] := by
      apply List.filter_eq_nil_iff.mpr
      intro a ha
      rcases List.mem_map.mp ha with ⟨e', _, rfl⟩
      simp [flipCurrent]
    rw [h1]
    rfl
  · -- other pairs untouched
    intro s2 t2 hne
    exact pairRows_update_other st.attribution_edges s t x ty _ s2 t2 hne

/-- S5 scenario: a transaction recorded with attribution `0.7` to memory
`7` (version 1), then one calibration update to `0.65`. -/
def s5Recorded : GraphState :=
  (recordTransaction ⟨0, [], [], [], []⟩ "u" "q" "r" "a" 0 [7] [7 / 10]
    ScoreType.eas).1

def s5AfterFirst : GraphState :=
  (updateAttribution s5Recorded 7 0 (13 / 20) ScoreType.calibrated).getD
    s5Recorded

def s5Final : GraphState :=
  (updateAttribution s5AfterFirst 7 0 (29 / 50) ScoreType.calibrated).getD
    s5AfterFirst

/-- Witness for C3: the S5 scenario.  After recording the version-1 edge
and applying `update_attribution` twice, the pair has exactly three rows
with versions 1, 2, 3, and only the third (version 3, score 0.58) is
current. -/
theorem update_attribution_versioning_witness :
    pairInv (pairRows s5AfterFirst.attribution_edges 7 0) ∧
    updateVersioningProp s5AfterFirst 7 0 (29 / 50) ScoreType.calibrated ∧
    (pairRows s5Final.attribution_edges 7 0).length = 3 ∧
    (pairRows s5Final.attribution_edges 7 0).map
      (fun e => (e.version, e.is_current))
      = [(1, false), (2, false), (3, true)] ∧
    (s5Final.attribution_edges.filter (fun e => e.is_current)).map
      (fun e => (e.version, e.score)) = [(3, 29 / 50)] :=
  ⟨by unfold pairInv; decide,
    update_attribution_versioning s5AfterFirst 7 0 (29 / 50)
      ScoreType.calibrated (by unfold pairInv; decide),
    by decide, by decide, rfl⟩

/-! ### Footprint engine — embedding of `compute_user_footprint` and
`compute_influence_footprint`.

Both methods run the same recursive CTE `user_footprint`: the base case
collects `(target_id, 'memory')` for creation edges out of the user's
interactions, and the recursive case follows derivation edges out of any
collected node id (the SQL join is on `node_id` alone).  `UNION` has set
semantics, modelled by iterating a dedup-union step to saturation (one
round per derivation edge plus one always suffices). -/

def footprintBase (st : GraphState) (u : String) : List (Nat × NodeType) :=
  (st.creation_edges.filter (fun ce =>
    st.interactions.any (fun i => i.user_id == u && ce.source_id == i.id))).map
    (fun ce => (ce.target_id, NodeType.memory))

def footprintStep (st : GraphState) (acc : List (Nat × NodeType)) :
    List (Nat × NodeType) :=
  (st.derivation_edges.filter (fun de =>
    acc.any (fun p => p.1 == de.source_id))).map
    (fun de => (de.target_id, de.target_type))

def footprintIter (st : GraphState) :
    Nat → List (Nat × NodeType) → List (Nat × NodeType)
  | 0, acc => acc
  | n + 1, acc => footprintIter st n ((acc ++ footprintStep st acc).dedup)

def footprintClosure (st : GraphState) (u : String) : List (Nat × NodeType) :=
  footprintIter st (st.derivation_edges.length + 1) (footprintBase st u).dedup

/-- Result of `compute_user_footprint` (the `UserFootprint` dataclass).
UUIDs are modelled as naturals; `serialize()` stringifies them. -/
structure UserFootprint where
  user_id : String
  memory_node_ids : List Nat
  summary_node_ids : List Nat
  embedding_node_ids : List Nat
  interaction_node_ids : List Nat
deriving DecidableEq

/-- Embedding of `compute_user_footprint`: interaction ids by direct
selection on `user_id`, and the CTE rows bucketed by `node_type`. -/
def computeUserFootprint (st : GraphState) (u : String) : UserFootprint :=
  { user_id := u
    memory_node_ids := ((footprintClosure st u).filter
      (fun p => p.2 == NodeType.memory)).map (fun p => p.1)
    summary_node_ids := ((footprintClosure st u).filter
      (fun p => p.2 == NodeType.summary)).map (fun p => p.1)
    embedding_node_ids := ((footprintClosure st u).filter
      (fun p => p.2 == NodeType.embedding)).map (fun p => p.1)
    interaction_node_ids := (st.interactions.filter
      (fun i => i.user_id == u)).map (fun i => i.id) }

/-- Embedding of `compute_influence_footprint`: `SELECT DISTINCT
ae.target_id` over attribution edges joined to the CTE's memory rows,
restricted to `is_current = TRUE AND score > 0`. -/
def computeInfluenceFootprint (st : GraphState) (u : String) : List Nat :=
  ((st.attribution_edges.filter (fun ae =>
    (footprintClosure st u).any
      (fun p => p.1 == ae.source_id && p.2 == NodeType.memory)
    && ae.is_current && decide (0 < ae.score))).map
    (fun ae => ae.target_id)).dedup

lemma memory_node_ids_eq (st : GraphState) (u : String) :
    (computeUserFootprint st u).memory_node_ids
      = ((footprintClosure st u).filter
          (fun p => p.2 == NodeType.memory)).map (fun p => p.1) := rfl

/-- The characterization of I(u) claimed by the spec, phrased against the
memory bucket of F(u) as computed by `compute_user_footprint`. -/
def influenceFootprintProp (st : GraphState) (u : String) : Prop :=
  (computeInfluenceFootprint st u).Nodup ∧
  ∀ i, (i ∈ computeInfluenceFootprint st u ↔
    ∃ e ∈ st.attribution_edges,
      e.source_id ∈ (computeUserFootprint st u).memory_node_ids ∧
      e.is_current = true ∧ 0 < e.score ∧ e.target_id = i)

/-- S7 scenario graph: Alice's interaction 0 created memory 100; Bob's
interaction 1 has a single current attribution edge from memory 100 with
score 0.0. -/
def s7State : GraphState :=
  { nextId := 2
    interactions := [⟨0, "alice", "qa", "ra", "agent", 0⟩,
                     ⟨1, "bob", "qb", "rb", "agent", 0⟩]
    attribution_edges := [⟨100, 1, 0, ScoreType.eas, 1, true⟩]
    creation_edges := [⟨0, 100⟩]
    derivation_edges := [] }

/-- C7: `compute_influence_footprint(u)` returns exactly the distinct
interaction ids that are the target of some attribution edge whose source
is a memory node of F(u), restricted to `is_current = TRUE` and
`score > 0`; in particular (S7) an interaction whose only attribution edge
from a memory of F(u) has score 0.0 is not in I(u), even though the memory
is in F(u). -/
theorem influence_footprint_spec :
    (∀ (st : GraphState) (u : String), influenceFootprintProp st u) ∧
    1 ∉ computeInfluenceFootprint s7State "alice" ∧
    100 ∈ (computeUserFootprint s7State "alice").memory_node_ids := by
  refine ⟨?_, by decide, by decide⟩
  intro st u
  constructor
  · exact List.nodup_dedup _
  · intro i
    unfold computeInfluenceFootprint
    simp only [memory_node_ids_eq, List.mem_dedup, List.mem_map,
      List.mem_filter, List.any_eq_true, Bool.and_eq_true, beq_iff_eq,
      decide_eq_true_eq]
    constructor
    · rintro ⟨ae, ⟨hmem, ⟨⟨p, hp, hps, hpt⟩, hcur⟩, hsc⟩, rfl⟩
      exact ⟨ae, hmem, ⟨p, ⟨hp, hpt⟩, hps⟩, hcur, hsc, rfl⟩
    · rintro ⟨ae, hmem, ⟨p, ⟨hp, hpt⟩, hps⟩, hcur, hsc, rfl⟩
      exact ⟨ae, ⟨hmem, ⟨⟨p, hp, hps, hpt⟩, hcur⟩, hsc⟩, rfl⟩

/-! ### Transaction completion endpoint — embedding of
`complete_transaction` in cortex/api/transactions.py.

The endpoint's database session is modelled as an explicit state of the
four tables it touches.  Both failure branches `raise` before any
`db.execute` write, so they return the state unchanged. -/

inductive TransactionStatus
  | pending
  | completed
deriving DecidableEq

structure Txn where
  id : Nat
  query_text : String
  query_embedding : Option (List ℚ)
  response_text : Option String
  response_embedding : Option (List ℚ)
  retrieved_memory_ids : List Nat
  agent_id : String
  input_tokens : Nat
  output_tokens : Nat
  status : TransactionStatus
deriving DecidableEq

structure ScoreRow where
  memory_id : Nat
  transaction_id : Nat
  score : ℚ
  raw_score : ℚ
deriving DecidableEq

structure ApiState where
  transactions : List Txn
  memories : List Memory
  scores : List ScoreRow
  profiles : List (Nat × MemoryProfile)
deriving DecidableEq

inductive HttpError
  | notFound
  | conflict
deriving DecidableEq

structure CompleteBody where
  response_text : String
  response_embedding : Option (List ℚ)
  input_tokens : Option Nat
  output_tokens : Option Nat

/-- Python `body.tokens or default`: `None` and `0` both fall back. -/
def orTokens (v : Option Nat) (d : Nat) : Nat :=
  match v with
  | none => d
  | some 0 => d
  | some (n + 1) => n + 1

/-- `len(text.split())`, with the space character as separator. -/
def whitespaceTokens (s : String) : Nat :=
  ((s.splitOn " ").filter (fun w => w ≠ "")).length

/-- Python `x or y` on embeddings: `None` and `[]` are falsy. -/
def orEmbedding (v : Option (List ℚ)) (d : List ℚ) : List ℚ :=
  match v with
  | none => d
  | some [] => d
  | some (x :: xs) => x :: xs

/-- The `ON CONFLICT (memory_id)` upsert against the profiles table. -/
def upsertProfile (profiles : List (Nat × MemoryProfile)) (mid : Nat)
    (x : ℚ) : List (Nat × MemoryProfile) :=
  if profiles.any (fun p => p.1 == mid) then
    profiles.map (fun p =>
      if p.1 == mid then (p.1, welfordUpsert (some p.2) x) else p)
  else profiles ++ [(mid, welfordUpsert none x)]

/-- `UPDATE memories SET retrieval_count = retrieval_count + 1` (the
`last_accessed` timestamp is not modelled). -/
def bumpMemory (mems : List Memory) (mid : Nat) : List Memory :=
  mems.map (fun m =>
    if m.id == mid then { m with retrieval_count := m.retrieval_count + 1 }
    else m)

/-- The write half of `_run_eas_and_store`: insert all score rows, then
per score upsert the profile and bump the memory counters. -/
def applyStores (st : ApiState) (txn_id : Nat)
    (stored : List StoredScore) : ApiState :=
  stored.foldl
    (fun acc sc =>
      { acc with
          profiles := upsertProfile acc.profiles sc.memory_id sc.score,
          memories := bumpMemory acc.memories sc.memory_id })
    { st with
        scores := st.scores ++ stored.map (fun sc =>
          (⟨sc.memory_id, txn_id, sc.score, sc.raw_score⟩ : ScoreRow)) }

/-- Embedding of `complete_transaction`: look the transaction up (`404` if
absent, `409` if not pending — both raised before any write), then embed
the response if needed, default the token counts from whitespace splits,
mark the transaction completed, and run EAS-and-store with
`snapshot = true`. -/
def completeTransaction (sq : ℚ → ℚ) (embedFn : String → List ℚ)
    (st : ApiState) (txn_id : Nat) (body : CompleteBody) :
    ApiState × Option HttpError :=
  match st.transactions.find? (fun tx => tx.id == txn_id) with
  | none => (st, some HttpError.notFound)
  | some txn =>
      if txn.status ≠ TransactionStatus.pending then
        (st, some HttpError.conflict)
      else
        let r_emb := orEmbedding body.response_embedding
          (embedFn body.response_text)
        let input_tokens := orTokens body.input_tokens
          (whitespaceTokens txn.query_text)
        let output_tokens := orTokens body.output_tokens
          (whitespaceTokens body.response_text)
        let st1 := { st with transactions := st.transactions.map (fun tx =>
          if tx.id == txn_id then
            { tx with response_text := some body.response_text,
                      response_embedding := some r_emb,
                      input_tokens := input_tokens,
                      output_tokens := output_tokens,
                      status := TransactionStatus.completed }
          else tx) }
        let q_emb := orEmbedding txn.query_embedding []
        let stored := runEasScores sq st1.memories q_emb r_emb
          txn.retrieved_memory_ids true
        (applyStores st1 txn_id stored, none)

/-- The claimed failure behaviour of `complete`: 404 when the transaction
does not exist, 409 when it is not pending, with the state returned
unchanged (no write performed) in both cases. -/
def completeErrorProp (sq : ℚ → ℚ) (embedFn : String → List ℚ)
    (st : ApiState) (txn_id : Nat) (body : CompleteBody) : Prop :=
  (st.transactions.find? (fun tx => tx.id == txn_id) = none →
    completeTransaction sq embedFn st txn_id body
      = (st, some HttpError.notFound)) ∧
  (∀ txn, st.transactions.find? (fun tx => tx.id == txn_id) = some txn →
    txn.status ≠ TransactionStatus.pending →
    completeTransaction sq embedFn st txn_id body
      = (st, some HttpError.conflict))

/-- C8: `complete` fails with NotFound (404) when no transaction with the
given id exists and with Conflict (409) when the transaction is not
pending; in both failure cases no write is performed — the stored
transactions, attribution scores, memory profiles (and memories) are
returned unchanged. -/
theorem complete_transaction_errors (sq : ℚ → ℚ)
    (embedFn : String → List ℚ) (st : ApiState) (txn_id : Nat)
    (body : CompleteBody) :
    completeErrorProp sq embedFn st txn_id body := by
  constructor
  · intro h
    unfold completeTransaction
    rw [h]
  · intro txn h hst
    unfold completeTransaction
    rw [h]
    simp only [if_pos hst]

/-- A completed (non-pending) transaction stored under id 1. -/
def conflictTxn : Txn :=
  { id := 1
    query_text := "q"
    query_embedding := some [1]
    response_text := some "r"
    response_embedding := some [1]
    retrieved_memory_ids := []
    agent_id := "a"
    input_tokens := 1
    output_tokens := 1
    status := TransactionStatus.completed }

def conflictState : ApiState :=
  { transactions := [conflictTxn]
    memories := []
    scores := []
    profiles := [] }

/-- Witness for C8: a missing id yields 404 on an empty store, and a
completed transaction yields 409, both leaving the state unchanged. -/
theorem complete_transaction_errors_witness :
    completeTransaction id (fun _ => []) ⟨[], [], [], []⟩ 5
      ⟨"resp", some [1], none, none⟩
      = (⟨[], [], [], []⟩, some HttpError.notFound) ∧
    completeTransaction id (fun _ => []) conflictState 1
      ⟨"resp", some [1], none, none⟩
      = (conflictState, some HttpError.conflict) :=
  ⟨(complete_transaction_errors id (fun _ => []) ⟨[], [], [], []⟩ 5
      ⟨"resp", some [1], none, none⟩).1 rfl,
   (complete_transaction_errors id (fun _ => []) conflictState 1
      ⟨"resp", some [1], none, none⟩).2 conflictTxn
     (by simp [conflictState, conflictTxn]) (by simp [conflictTxn])⟩

/-! ### SHA-256 — needed by `UserFootprint.certificate_hash`, which is
`hashlib.sha256(json.dumps(self.serialize(), sort_keys=True).encode())
.hexdigest()`.  The hash is implemented over byte lists with 32-bit words
as naturals reduced mod `2^32`; the round and initial constants are the
first 32 fractional bits of the cube/square roots of the first primes, as
in the standard, computed here by integer root extraction. -/

def w32 (x : Nat) : Nat := x % 4294967296

def rotr (n x : Nat) : Nat := w32 ((x >>> n) ||| (x <<< (32 - n)))

def bnot32 (x : Nat) : Nat := 4294967295 - x

def bsig0 (x : Nat) : Nat := (rotr 2 x) ^^^ (rotr 13 x) ^^^ (rotr 22 x)

def bsig1 (x : Nat) : Nat := (rotr 6 x) ^^^ (rotr 11 x) ^^^ (rotr 25 x)

def ssig0 (x : Nat) : Nat := (rotr 7 x) ^^^ (rotr 18 x) ^^^ (x >>> 3)

def ssig1 (x : Nat) : Nat := (rotr 17 x) ^^^ (rotr 19 x) ^^^ (x >>> 10)

def ch (x y z : Nat) : Nat := (x &&& y) ^^^ ((bnot32 x) &&& z)

def maj (x y z : Nat) : Nat := (x &&& y) ^^^ (x &&& z) ^^^ (y &&& z)

/-- Integer cube root by binary search (fuel-bounded bisection on
`[lo, hi)` with `lo³ ≤ m < hi³`). -/
def icbrtGo : Nat → Nat → Nat → Nat → Nat
  | 0, lo, _, _ => lo
  | fuel + 1, lo, hi, m =>
      if hi ≤ lo + 1 then lo
      else
        let mid := (lo + hi) / 2
        if mid * mid * mid ≤ m then icbrtGo fuel mid hi m
        else icbrtGo fuel lo mid m

def icbrt (m : Nat) : Nat := icbrtGo 200 0 (m + 2) m

/-- Integer square root by the same bisection (kernel-reducible, unlike
`Nat.sqrt`). -/
def isqrtGo : Nat → Nat → Nat → Nat → Nat
  | 0, lo, _, _ => lo
  | fuel + 1, lo, hi, m =>
      if hi ≤ lo + 1 then lo
      else
        let mid := (lo + hi) / 2
        if mid * mid ≤ m then isqrtGo fuel mid hi m
        else isqrtGo fuel lo mid m

def isqrt (m : Nat) : Nat := isqrtGo 200 0 (m + 2) m

def primes64 : List Nat :=
  [2, 3, 5, 7, 11, 13, 17, 19, 23, 29, 31, 37, 41, 43, 47, 53,
   59, 61, 67, 71, 73, 79, 83, 89, 97, 101, 103, 107, 109, 113, 127, 131,
   137, 139, 149, 151, 157, 163, 167, 173, 179, 181, 191, 193, 197, 199,
   211, 223, 227, 229, 233, 239, 241, 251, 257, 263, 269, 271, 277, 281,
   283, 293, 307, 311]

/-- Round constants: first 32 fractional bits of the cube roots of the
first 64 primes. -/
def K256 : List Nat := primes64.map (fun p => icbrt (p * 2 ^ 96) % 2 ^ 32)

/-- Initial state: first 32 fractional bits of the square roots of the
first 8 primes. -/
def H256 : List Nat :=
  (primes64.take 8).map (fun p => isqrt (p * 2 ^ 64) % 2 ^ 32)

structure Hash8 where
  a : Nat
  b : Nat
  c : Nat
  d : Nat
  e : Nat
  f : Nat
  g : Nat
  h : Nat
deriving DecidableEq

def initHash : Hash8 :=
  ⟨H256.getD 0 0, H256.getD 1 0, H256.getD 2 0, H256.getD 3 0,
   H256.getD 4 0, H256.getD 5 0, H256.getD 6 0, H256.getD 7 0⟩

/-- Big-endian byte expansion of a natural, fixed width. -/
def toBytesBE : Nat → Nat → List Nat
  | 0, _ => []
  | k + 1, m => toBytesBE k (m / 256) ++ [m % 256]

/-- SHA-256 padding: `0x80`, zeros to 56 mod 64, then the 64-bit
big-endian bit length. -/
def padMessage (msg : List Nat) : List Nat :=
  let padZeros := (64 + 56 - (msg.length + 1) % 64) % 64
  msg ++ [128] ++ List.replicate padZeros 0 ++ toBytesBE 8 (8 * msg.length)

def bytesToWords : List Nat → List Nat
  | b0 :: b1 :: b2 :: b3 :: rest =>
      (((b0 * 256 + b1) * 256 + b2) * 256 + b3) :: bytesToWords rest
  | _ => []

def splitBlocks : Nat → List Nat → List (List Nat)
  | 0, _ => []
  | n + 1, ws => ws.take 16 :: splitBlocks n (ws.drop 16)

/-- Message-schedule extension: 48 rounds of
`W[i] = σ1(W[i−2]) + W[i−7] + σ0(W[i−15]) + W[i−16]`. -/
def scheduleExtend : Nat → List Nat → List Nat
  | 0, ws => ws
  | n + 1, ws =>
      let t := ws.length
      let w := w32 (ssig1 (ws.getD (t - 2) 0) + ws.getD (t - 7) 0
        + ssig0 (ws.getD (t - 15) 0) + ws.getD (t - 16) 0)
      scheduleExtend n (ws ++ [w])

def schedule (block : List Nat) : List Nat := scheduleExtend 48 block

def compressRound (s : Hash8) (k w : Nat) : Hash8 :=
  let t1 := w32 (s.h + bsig1 s.e + ch s.e s.f s.g + k + w)
  let t2 := w32 (bsig0 s.a + maj s.a s.b s.c)
  ⟨w32 (t1 + t2), s.a, s.b, s.c, w32 (s.d + t1), s.e, s.f, s.g⟩

def compressBlock (s : Hash8) (block : List Nat) : Hash8 :=
  let fin := (K256.zip (schedule block)).foldl
    (fun acc kw => compressRound acc kw.1 kw.2) s
  ⟨w32 (s.a + fin.a), w32 (s.b + fin.b), w32 (s.c + fin.c),
   w32 (s.d + fin.d), w32 (s.e + fin.e), w32 (s.f + fin.f),
   w32 (s.g + fin.g), w32 (s.h + fin.h)⟩

def sha256Hash (msg : List Nat) : Hash8 :=
  let ws := bytesToWords (padMessage msg)
  (splitBlocks (ws.length / 16) ws).foldl compressBlock initHash

/-- The sixteen lowercase hex digit characters. -/
def hexAlphabet : List Char := "0123456789abcdef".data

def hexDigit (n : Nat) : Char :=
  if n < 10 then Char.ofNat (48 + n) else Char.ofNat (87 + n)

def wordHexChars (w : Nat) : List Char :=
  (List.range 8).map (fun i => hexDigit ((w >>> (28 - 4 * i)) % 16))

def sha256HexChars (msg : List Nat) : List Char :=
  wordHexChars (sha256Hash msg).a ++ wordHexChars (sha256Hash msg).b
  ++ wordHexChars (sha256Hash msg).c ++ wordHexChars (sha256Hash msg).d
  ++ wordHexChars (sha256Hash msg).e ++ wordHexChars (sha256Hash msg).f
  ++ wordHexChars (sha256Hash msg).g ++ wordHexChars (sha256Hash msg).h

def sha256Hex (msg : List Nat) : String := String.mk (sha256HexChars msg)

set_option maxRecDepth 100000 in
/-- FIPS 180-4 test vector: SHA-256 of `"abc"`. -/
lemma sha256_abc_vector :
    sha256Hash [97, 98, 99]
      = ⟨0xba7816bf, 0x8f01cfea, 0x414140de, 0x5dae2223,
         0xb00361a3, 0x96177a9c, 0xb410ff61, 0xf20015ad⟩ := by decide

set_option maxRecDepth 100000 in
/-- Test vector: SHA-256 of the empty message. -/
lemma sha256_empty_vector :
    sha256Hash []
      = ⟨0xe3b0c442, 0x98fc1c14, 0x9afbf4c8, 0x996fb924,
         0x27ae41e4, 0x649b934c, 0xa495991b, 0x7852b855⟩ := by decide

/-! ### Footprint serialization and certificate hash -/

def jsonStr (s : String) : String := "\"" ++ s ++ "\""

def jsonStrList (xs : List String) : String :=
  "[" ++ String.intercalate ", " (xs.map jsonStr) ++ "]"

/-- `json.dumps(self.serialize(), sort_keys=True)`: the five keys of
`serialize()` in lexicographic order with Python's default `", "` and
`": "` separators; ids are stringified (`str(uuid)` modelled as the
decimal rendering of the natural id, an injective lowercase ASCII
stringification like the UUID one). -/
def serializeSortedKeys (fp : UserFootprint) : String :=
  "\x7b\"embedding_node_ids\": "
    ++ jsonStrList (fp.embedding_node_ids.map toString)
    ++ ", \"interaction_node_ids\": "
    ++ jsonStrList (fp.interaction_node_ids.map toString)
    ++ ", \"memory_node_ids\": "
    ++ jsonStrList (fp.memory_node_ids.map toString)
    ++ ", \"summary_node_ids\": "
    ++ jsonStrList (fp.summary_node_ids.map toString)
    ++ ", \"user_id\": " ++ jsonStr fp.user_id ++ "\x7d"

/-- `.encode()`: the serialization is ASCII, so UTF-8 bytes are the
codepoints. -/
def strBytes (s : String) : List Nat := s.data.map (fun c => c.toNat)

/-- Embedding of `UserFootprint.certificate_hash()`. -/
def certificate_hash (fp : UserFootprint) : String :=
  sha256Hex (strBytes (serializeSortedKeys fp))

lemma length_wordHexChars (w : Nat) : (wordHexChars w).length = 8 := by
  simp [wordHexChars]

lemma mem_wordHexChars (w : Nat) :
    ∀ c ∈ wordHexChars w, c ∈ hexAlphabet := by
  intro c hc
  rcases List.mem_map.mp hc with ⟨i, _, rfl⟩
  have h16 : (w >>> (28 - 4 * i)) % 16 < 16 := Nat.mod_lt _ (by norm_num)
  revert h16
  generalize (w >>> (28 - 4 * i)) % 16 = m
  intro h16
  interval_cases m <;> decide

lemma mem_sha256HexChars (msg : List Nat) :
    ∀ c ∈ sha256HexChars msg, c ∈ hexAlphabet := by
  intro c hc
  simp only [sha256HexChars, List.mem_append] at hc
  rcases hc with ((((((h | h) | h) | h) | h) | h) | h) | h <;>
    exact mem_wordHexChars _ _ h

/-- The certificate hash facts that do hold: 64 characters, all lowercase
hex (and, the model being a pure function, stability across repeated
computation). -/
def certificateHashProp (fp : UserFootprint) : Prop :=
  (certificate_hash fp).length = 64 ∧
  ∀ c ∈ (certificate_hash fp).data, c ∈ hexAlphabet

def fpOrderA : UserFootprint := ⟨"u", [1, 2], [], [], []⟩

def fpOrderB : UserFootprint := ⟨"u", [2, 1], [], [], []⟩

set_option maxRecDepth 1000000 in
/-- C6 as stated is false: `serialize()` keeps each id list in its stored
order, so two footprints with the same user and the same multiset of ids
in every list — `[1, 2]` versus `[2, 1]` — serialize to different JSON
bytes and hash to different certificates. -/
theorem certificate_hash_counterexample :
    fpOrderA.user_id = fpOrderB.user_id ∧
    Multiset.ofList fpOrderA.memory_node_ids
      = Multiset.ofList fpOrderB.memory_node_ids ∧
    fpOrderA.summary_node_ids = fpOrderB.summary_node_ids ∧
    fpOrderA.embedding_node_ids = fpOrderB.embedding_node_ids ∧
    fpOrderA.interaction_node_ids = fpOrderB.interaction_node_ids ∧
    certificate_hash fpOrderA ≠ certificate_hash fpOrderB := by
  refine ⟨rfl, by decide, rfl, rfl, rfl, ?_⟩
  decide

/-- C6 amended: `certificate_hash` always returns 64 lowercase hex
characters, is stable across repeated computation, and two footprints
with the same user and the same id lists *in the same stored order*
(equivalently, the same serialized form) hash identically; mere multiset
equality does not suffice. -/
theorem certificate_hash_spec (fp1 fp2 : UserFootprint)
    (hu : fp1.user_id = fp2.user_id)
    (hm : fp1.memory_node_ids = fp2.memory_node_ids)
    (hs : fp1.summary_node_ids = fp2.summary_node_ids)
    (he : fp1.embedding_node_ids = fp2.embedding_node_ids)
    (hi : fp1.interaction_node_ids = fp2.interaction_node_ids) :
    certificateHashProp fp1 ∧ certificate_hash fp1 = certificate_hash fp2 := by
  refine ⟨⟨?_, ?_⟩, ?_⟩
  · show (sha256HexChars (strBytes (serializeSortedKeys fp1))).length = 64
    simp [sha256HexChars, length_wordHexChars]
  · intro c hc
    exact mem_sha256HexChars _ c hc
  · unfold certificate_hash
    rw [show serializeSortedKeys fp1 = serializeSortedKeys fp2 from by
      unfold serializeSortedKeys
      rw [hu, hm, hs, he, hi]]

/-- Witness for the amended C6 at a concrete footprint. -/
theorem certificate_hash_spec_witness :
    certificateHashProp fpOrderA ∧
    certificate_hash fpOrderA = certificate_hash fpOrderA :=
  certificate_hash_spec fpOrderA fpOrderA rfl rfl rfl rfl rfl

end Cortexa
